import Mathlib

/-!
Verification of the turbo shim (`crates/turborepo-lib/src/shim.rs`):
argument splitting (`ShimArgs::parse`), repository-mode inference
(`RepoState::infer`), the version gate
(`RepoState::local_turbo_supports_skip_infer`) and the dispatcher
(`run`, `RepoState::run_correct_turbo`, `RepoState::spawn_local_turbo`,
`should_run_current_turbo`).

Filesystem paths are modelled as lists of components (`FilePath`), the
ambient filesystem and process environment as an explicit `Disk` record of
query functions, and every fallible operation as `Except String`.
-/

set_option autoImplicit false

deriving instance DecidableEq for Except

namespace Turbo

/-- A filesystem path, as its list of components from the root.
`Path::ancestors` of `/a/b` yields `/a/b`, `/a`, `/`, which here is
`[a, b]`, `[a]`, `[]`. -/
abbrev FilePath := List String

/-- `Path::ancestors`: the path itself and every ancestor, closest first,
ending at the root `[]`. -/
def ancestors (p : FilePath) : List FilePath :=
  (List.range (p.length + 1)).map (fun k => p.take (p.length - k))

/-- Models `PathBuf::from` applied to a raw argument string: the argument
split into its `/`-separated components. -/
def stringToPath (s : String) : FilePath :=
  ((s.data.splitOn '/').map fun cs => String.mk cs)

/-- The `version` field of a `package.json` manifest (struct `PackageJson`
in the source). -/
structure PackageJson where
  version : String
deriving DecidableEq, Repr

/-- The ambient filesystem and process environment, as the queries the shim
performs against it.  `hasTurboJson p` models `fs::metadata(p.join("turbo.json")).is_ok()`,
`hasPackageJson p` models the same for `package.json`,
`pnpmWorkspaceGlobsOk p` / `npmWorkspaceGlobsOk p` model
`PackageManager::{Pnpm,Npm}.get_workspace_globs(p).is_ok()`,
`pathExists` models `Path::exists`, `canonicalize` models
`Path::canonicalize`, `currentExe` models `current_exe()?.canonicalize()?`,
and `readPackageJson p` models `serde_json::from_reader(File::open(p)?)?`
(an `.error` covers both an unreadable file and malformed JSON). -/
structure Disk where
  hasTurboJson : FilePath → Bool
  hasPackageJson : FilePath → Bool
  pnpmWorkspaceGlobsOk : FilePath → Bool
  npmWorkspaceGlobsOk : FilePath → Bool
  pathExists : FilePath → Bool
  canonicalize : FilePath → Except String FilePath
  currentExe : Except String FilePath
  readPackageJson : FilePath → Except String PackageJson

/-- `RepoMode` from the source. -/
inductive RepoMode where
  | SinglePackage
  | MultiPackage
deriving DecidableEq, Repr

/-- `RepoState` from the source: inferred root and mode. -/
structure RepoState where
  root : FilePath
  mode : RepoMode
deriving DecidableEq, Repr

/-- `pnpm.get_workspace_globs(dir).is_ok() || npm.get_workspace_globs(dir).is_ok()`,
the workspace test `RepoState::infer` applies at a candidate directory. -/
def isWorkspace (disk : Disk) (dir : FilePath) : Bool :=
  disk.pnpmWorkspaceGlobsOk dir || disk.npmWorkspaceGlobsOk dir

/-- The `for dir in potential_roots` loop of `RepoState::infer`, together
with the `first_package_json_dir.ok_or_else(...)` fallback after it: walks
the `package.json`-bearing ancestors closest first, records the first one,
returns `MultiPackage` at the first workspace hit, `SinglePackage` at the
recorded fallback otherwise, and the source's error when there was none. -/
def inferLoop (disk : Disk) : List FilePath → Option FilePath → Except String RepoState
  | [], none => .error "Unable to find `turbo.json` or `package.json` in current path"
  | [], some first => .ok ⟨first, .SinglePackage⟩
  | dir :: rest, firstOpt =>
    let firstOpt' := if firstOpt.isNone then some dir else firstOpt
    if isWorkspace disk dir then .ok ⟨dir, .MultiPackage⟩
    else inferLoop disk rest firstOpt'

/-- `RepoState::infer`: first ancestor holding `turbo.json` wins with mode
decided by the workspace probe there; otherwise the `package.json` ancestor
walk (`inferLoop`) decides. -/
def RepoState.infer (disk : Disk) (current_dir : FilePath) : Except String RepoState :=
  match (ancestors current_dir).find? (fun p => disk.hasTurboJson p) with
  | some root_path =>
    let mode := if isWorkspace disk root_path then RepoMode.MultiPackage
      else RepoMode.SinglePackage
    .ok ⟨root_path, mode⟩
  | none =>
    inferLoop disk ((ancestors current_dir).filter (fun p => disk.hasPackageJson p)) none

/-- `ShimArgs` from the source: parsed shim-level arguments.  `cwd` holds
the working-directory override (or the process current directory),
`remaining_turbo_args` the dispatcher-facing tokens and `forwarded_args`
the tokens after the first bare `--`. -/
structure ShimArgs where
  cwd : FilePath
  skip_infer : Bool
  remaining_turbo_args : List String
  forwarded_args : List String
deriving DecidableEq, Repr

/-- The mutable locals of `ShimArgs::parse` while scanning the argument
list. -/
structure ParseState where
  found_cwd_flag : Bool
  cwd : Option FilePath
  skip_infer : Bool
  remaining_turbo_args : List String
  forwarded_args : List String
  is_forwarded_args : Bool
deriving DecidableEq, Repr

/-- The locals of `ShimArgs::parse` before the first iteration. -/
def initParseState : ParseState :=
  { found_cwd_flag := false, cwd := none, skip_infer := false,
    remaining_turbo_args := [], forwarded_args := [], is_forwarded_args := false }

/-- One iteration of the `for arg in args` loop of `ShimArgs::parse`,
with the source's branch order: forwarding mode first, then `--skip-infer`,
then `--`, then a pending `--cwd` value, then `--cwd`, then a plain token. -/
def parseStep (s : ParseState) (arg : String) : Except String ParseState :=
  if s.is_forwarded_args then
    .ok { s with forwarded_args := s.forwarded_args ++ [arg] }
  else if arg == "--skip-infer" then
    .ok { s with skip_infer := true }
  else if arg == "--" then
    .ok { s with is_forwarded_args := true }
  else if s.found_cwd_flag then
    .ok { s with cwd := some (stringToPath arg), found_cwd_flag := false }
  else if arg == "--cwd" then
    if s.cwd.isSome then .error "cannot have multiple `--cwd` flags in command"
    else .ok { s with found_cwd_flag := true }
  else
    .ok { s with remaining_turbo_args := s.remaining_turbo_args ++ [arg] }

/-- The whole `for arg in args` loop of `ShimArgs::parse`. -/
def parseLoop (s : ParseState) : List String → Except String ParseState
  | [] => .ok s
  | arg :: rest =>
    match parseStep s arg with
    | .error e => .error e
    | .ok s' => parseLoop s' rest

/-- `ShimArgs::parse`, over an explicit raw argument list (minus the
program name) and the process current directory used as the `cwd`
default. -/
def ShimArgs.parse (current_dir : FilePath) (args : List String) : Except String ShimArgs :=
  match parseLoop initParseState args with
  | .error e => .error e
  | .ok s =>
    if s.found_cwd_flag then .error "No value assigned to `--cwd` argument"
    else .ok { cwd := s.cwd.getD current_dir, skip_infer := s.skip_infer,
               remaining_turbo_args := s.remaining_turbo_args,
               forwarded_args := s.forwarded_args }

/-- A semantic-version pre-release identifier: numeric or alphanumeric
(crate `semver`, SemVer item 9). -/
inductive PreIdent where
  | num : Nat → PreIdent
  | alpha : String → PreIdent
deriving DecidableEq, Repr

/-- Split a character list at every occurrence of `sep`; the char-level
analogue of `String.splitOn` for a one-character separator. -/
def splitChars (sep : Char) : List Char → List (List Char)
  | [] => [[]]
  | c :: rest =>
    if c = sep then [] :: splitChars sep rest
    else
      match splitChars sep rest with
      | [] => [[c]]
      | g :: gs => (c :: g) :: gs

/-- `String.splitOn` for a one-character separator, computed by structural
recursion over the character list. -/
def splitOnChar (sep : Char) (s : String) : List String :=
  (splitChars sep s.data).map String.mk

/-- Rejoin pieces with the separator character between them; the analogue
of `String.intercalate` for a one-character separator. -/
def joinChars (sep : Char) : List (List Char) → List Char
  | [] => []
  | [g] => g
  | g :: gs => g ++ sep :: joinChars sep gs

/-- `String.intercalate` for a one-character separator. -/
def intercalateChar (sep : Char) (parts : List String) : String :=
  String.mk (joinChars sep (parts.map String.data))

/-- The numeric value of a digit string, most significant first. -/
def charsToNat (cs : List Char) : Nat :=
  cs.foldl (fun acc c => acc * 10 + (c.toNat - 48)) 0

/-- A numeric version component or numeric pre-release identifier: digits
only, nonempty, no leading zero. -/
def parseNumIdent (s : String) : Option Nat :=
  match s.data with
  | [] => none
  | c :: rest =>
    if (c :: rest).all Char.isDigit && !(c = '0' && rest ≠ []) then
      some (charsToNat (c :: rest))
    else none

/-- One pre-release identifier: nonempty; numeric (no leading zero) if all
digits, else ASCII alphanumerics and hyphens. -/
def parsePreIdent (s : String) : Option PreIdent :=
  if s.data.isEmpty then none
  else if s.data.all Char.isDigit then (parseNumIdent s).map PreIdent.num
  else if s.data.all (fun c => c.isAlphanum || c == '-') then some (PreIdent.alpha s)
  else none

/-- One build-metadata identifier: nonempty ASCII alphanumerics and
hyphens (leading zeros allowed). -/
def validBuildIdent (s : String) : Bool :=
  !s.data.isEmpty && s.data.all (fun c => c.isAlphanum || c == '-')

/-- A parsed semantic version (crate `semver`'s `Version`; `build` takes
no part in precedence). -/
structure SemVersion where
  major : Nat
  minor : Nat
  patch : Nat
  pre : List PreIdent
  build : List String
deriving DecidableEq, Repr

/-- The `MAJOR.MINOR.PATCH[-PRE]` part of a version string, before any
build metadata.  The pre-release part starts at the first hyphen after the
numeric triple and may itself contain hyphens. -/
def parseCore (core : String) (build : List String) : Option SemVersion :=
  match splitOnChar '-' core with
  | [] => none
  | base :: rest =>
    match splitOnChar '.' base with
    | [ma, mi, pa] => do
      let major ← parseNumIdent ma
      let minor ← parseNumIdent mi
      let patch ← parseNumIdent pa
      if rest.isEmpty then
        some ⟨major, minor, patch, [], build⟩
      else do
        let pre ← (splitOnChar '.' (intercalateChar '-' rest)).mapM parsePreIdent
        some ⟨major, minor, patch, pre, build⟩
    | _ => none

/-- `Version::from_str` (crate `semver`): `MAJOR.MINOR.PATCH[-PRE][+BUILD]`,
`none` on anything malformed. -/
def parseVersion (s : String) : Option SemVersion :=
  match splitOnChar '+' s with
  | [core] => parseCore core []
  | [core, build] =>
    let idents := splitOnChar '.' build
    if idents.all validBuildIdent then parseCore core idents else none
  | _ => none

/-- Precedence on pre-release identifiers: numeric before alphanumeric,
numerics by value, alphanumerics in ASCII order. -/
def preIdentLt : PreIdent → PreIdent → Bool
  | .num a, .num b => decide (a < b)
  | .num _, .alpha _ => true
  | .alpha _, .num _ => false
  | .alpha a, .alpha b => decide (a < b)

/-- Lexicographic precedence on nonempty pre-release identifier lists; a
proper prefix precedes its extensions. -/
def preListLt : List PreIdent → List PreIdent → Bool
  | [], [] => false
  | [], _ :: _ => true
  | _ :: _, [] => false
  | a :: as, b :: bs => if a = b then preListLt as bs else preIdentLt a b

/-- Precedence on whole pre-release tags: the empty tag (a release) ranks
above every pre-release of the same numeric triple. -/
def prereleaseLt (a b : List PreIdent) : Bool :=
  match a, b with
  | [], _ => false
  | _ :: _, [] => true
  | _, _ => preListLt a b

/-- Full semantic-versioning precedence on versions (build metadata
ignored). -/
def versionLt (v w : SemVersion) : Bool :=
  if v.major ≠ w.major then decide (v.major < w.major)
  else if v.minor ≠ w.minor then decide (v.minor < w.minor)
  else if v.patch ≠ w.patch then decide (v.patch < w.patch)
  else prereleaseLt v.pre w.pre

/-- A `>=`-comparator with all of major, minor, patch present, as produced
by `VersionReq::parse` on the constant requirement string used by the
shim. -/
structure Comparator where
  major : Nat
  minor : Nat
  patch : Nat
  pre : List PreIdent
deriving DecidableEq, Repr

/-- Crate `semver`'s `matches_exact` for such a comparator. -/
def matchesExact (c : Comparator) (v : SemVersion) : Bool :=
  v.major == c.major && v.minor == c.minor && v.patch == c.patch && v.pre == c.pre

/-- Crate `semver`'s `matches_greater` for such a comparator. -/
def matchesGreater (c : Comparator) (v : SemVersion) : Bool :=
  if v.major ≠ c.major then decide (v.major > c.major)
  else if v.minor ≠ c.minor then decide (v.minor > c.minor)
  else if v.patch ≠ c.patch then decide (v.patch > c.patch)
  else prereleaseLt c.pre v.pre

/-- Crate `semver`'s `pre_is_compatible`: a pre-release version only
matches a requirement via a comparator carrying a pre-release on the same
numeric triple. -/
def preIsCompatible (c : Comparator) (v : SemVersion) : Bool :=
  c.major == v.major && c.minor == v.minor && c.patch == v.patch && !c.pre.isEmpty

/-- `VersionReq::matches` for a single `>=` comparator: the comparator
itself (exact or greater), plus the global pre-release compatibility
rule. -/
def reqMatches (c : Comparator) (v : SemVersion) : Bool :=
  (matchesExact c v || matchesGreater c v) && (v.pre.isEmpty || preIsCompatible c v)

/-- The source's `SUPPORTS_SKIP_INFER_SEMVER` requirement string. -/
def SUPPORTS_SKIP_INFER_SEMVER : String := ">=1.7.0-canary.0"

/-- `VersionReq::parse(SUPPORTS_SKIP_INFER_SEMVER).unwrap()`: the single
`>=1.7.0-canary.0` comparator. -/
def skipInferComparator : Comparator := ⟨1, 7, 0, [.alpha "canary", .num 0]⟩

/-- `RepoState::local_turbo_supports_skip_infer`, over the result of
reading `<root>/node_modules/turbo/package.json`: propagates a read or
JSON error, fails on an invalid version string, and otherwise tests the
version against `SUPPORTS_SKIP_INFER_SEMVER`. -/
def local_turbo_supports_skip_infer (manifest : Except String PackageJson) :
    Except String Bool :=
  match manifest with
  | .error e => .error e
  | .ok package_json =>
    match parseVersion package_json.version with
    | none => .error "invalid semver version string"
    | some version => .ok (reqMatches skipInferComparator version)

/-- The observable shape of the spawned child process: the program run,
its argument vector, and its working directory. -/
structure SpawnSpec where
  program : FilePath
  args : List String
  cwd : FilePath
deriving DecidableEq, Repr

/-- The dispatcher's outcome.  `RunCurrent st` models `cli::run(st)` (the
current binary handles the command in-process, with or without a detected
repository); `Delegated spec code` models `Payload::Rust(exit_code)` after
spawning the local binary described by `spec` and waiting for it. -/
inductive Payload where
  | RunCurrent : Option RepoState → Payload
  | Delegated : SpawnSpec → Int → Payload
deriving DecidableEq, Repr

/-- `<root>/node_modules/.bin/turbo`, the candidate local binary
(non-Windows spelling; Windows appends `.cmd`). -/
def localTurboPath (root : FilePath) : FilePath :=
  root ++ ["node_modules", ".bin", "turbo"]

/-- `<root>/node_modules/turbo/package.json`, the manifest consulted by the
version gate. -/
def localTurboManifestPath (root : FilePath) : FilePath :=
  root ++ ["node_modules", "turbo", "package.json"]

/-- `should_run_current_turbo`: `true` when the candidate local binary does
not exist (checked before any canonicalization, so a canonicalization
error there is irrelevant) or canonicalizes to the currently running
executable. -/
def should_run_current_turbo (disk : Disk) (local_turbo_path : FilePath) :
    Except String Bool :=
  if !(disk.pathExists local_turbo_path) then .ok true
  else
    match disk.canonicalize local_turbo_path with
    | .error e => .error e
    | .ok l =>
      match disk.currentExe with
      | .error e => .error e
      | .ok e => .ok (l == e)

/-- `RepoState::spawn_local_turbo`: canonicalize the root for the child's
working directory, run the version gate, build the child argument vector
by mutation order (`--skip-infer` first when gated in, then the
dispatcher-facing tokens, then `--single-package` when needed, then `--`,
then the forwarded tokens), and wait.  `waitCode` is the child's exit code
as reported by `wait()` (`none` when it cannot be determined). -/
def RepoState.spawn_local_turbo (st : RepoState) (disk : Disk)
    (local_turbo_path : FilePath) (shim_args : ShimArgs) (waitCode : Option Int) :
    Except String Payload :=
  match disk.canonicalize st.root with
  | .error e => .error e
  | .ok cwd =>
    match local_turbo_supports_skip_infer (disk.readPackageJson (localTurboManifestPath st.root)) with
    | .error e => .error e
    | .ok supports =>
      let raw_args : List String := if supports then ["--skip-infer"] else []
      let has_single_package_flag := shim_args.remaining_turbo_args.contains "--single-package"
      let raw_args := raw_args ++ shim_args.remaining_turbo_args
      let raw_args :=
        if st.mode == RepoMode.SinglePackage && !has_single_package_flag then
          raw_args ++ ["--single-package"]
        else raw_args
      let raw_args := raw_args ++ ["--"] ++ shim_args.forwarded_args
      .ok (.Delegated ⟨local_turbo_path, raw_args, cwd⟩ (waitCode.getD 2))

/-- `RepoState::run_correct_turbo`: run the current binary with the
inferred state when `should_run_current_turbo` says so, otherwise
canonicalize the candidate and spawn it. -/
def RepoState.run_correct_turbo (st : RepoState) (disk : Disk)
    (shim_args : ShimArgs) (waitCode : Option Int) : Except String Payload :=
  let local_turbo_path := localTurboPath st.root
  match should_run_current_turbo disk local_turbo_path with
  | .error e => .error e
  | .ok true => .ok (.RunCurrent (some st))
  | .ok false =>
    match disk.canonicalize local_turbo_path with
    | .error e => .error e
    | .ok canonical_local_turbo =>
      st.spawn_local_turbo disk canonical_local_turbo shim_args waitCode

/-- The shim's `run`, after argument parsing, returning the diagnostics
written to the error stream together with the payload.
`turbo_binary_path_set` models `is_turbo_binary_path_set()` (the
`TURBO_BINARY_PATH` environment override).  The update-notification check
is out of scope: its outcome is discarded by the source.  With
`skip_infer` set, `cli::run(None)` runs at once; with the override set,
inference runs for informational purposes and its error propagates via
`?`; otherwise an inference error is reported on the error stream and the
current binary runs with no repository context. -/
def run (turbo_binary_path_set : Bool) (disk : Disk) (args : ShimArgs)
    (waitCode : Option Int) : Except String (List String × Payload) :=
  if args.skip_infer then .ok ([], .RunCurrent none)
  else if turbo_binary_path_set then
    match RepoState.infer disk args.cwd with
    | .error e => .error e
    | .ok repo_state => .ok ([], .RunCurrent (some repo_state))
  else
    match RepoState.infer disk args.cwd with
    | .ok repo_state =>
      match repo_state.run_correct_turbo disk args waitCode with
      | .error e => .error e
      | .ok payload => .ok ([], payload)
    | .error err =>
      .ok (["Repository inference failed: " ++ err,
            "Running command as global turbo"], .RunCurrent none)

/-- A filesystem with no files at all, no readable manifests, and failing
canonicalization: the concrete environment used to exercise the
inference-failure paths. -/
def emptyDisk : Disk where
  hasTurboJson := fun _ => false
  hasPackageJson := fun _ => false
  pnpmWorkspaceGlobsOk := fun _ => false
  npmWorkspaceGlobsOk := fun _ => false
  pathExists := fun _ => false
  canonicalize := fun _ => .error "canonicalize failed"
  currentExe := .error "current_exe failed"
  readPackageJson := fun _ => .error "open failed"

/-- A tree with a `turbo.json` at `/root` and no workspace declaration:
the spec's first inference example. -/
def markerDisk : Disk where
  hasTurboJson := fun p => p == ["root"]
  hasPackageJson := fun _ => false
  pnpmWorkspaceGlobsOk := fun _ => false
  npmWorkspaceGlobsOk := fun _ => false
  pathExists := fun _ => false
  canonicalize := fun p => .ok p
  currentExe := .ok ["global", "turbo"]
  readPackageJson := fun _ => .error "open failed"

/-- A tree with no `turbo.json`, a `package.json` at `/root` and at
`/root/pkgs/a`, and a workspace declaration only at `/root/pkgs/a`: the
spec's closest-workspace-wins example. -/
def fallbackDisk : Disk where
  hasTurboJson := fun _ => false
  hasPackageJson := fun p => p == ["root"] || p == ["root", "pkgs", "a"]
  pnpmWorkspaceGlobsOk := fun p => p == ["root", "pkgs", "a"]
  npmWorkspaceGlobsOk := fun _ => false
  pathExists := fun _ => false
  canonicalize := fun p => .ok p
  currentExe := .ok ["global", "turbo"]
  readPackageJson := fun _ => .error "open failed"

/-- A tree where the local binary exists, canonicalization is the
identity, the current executable lives elsewhere, and the local turbo
manifest declares version `1.7.0`: exercises the delegation path. -/
def delegateDisk : Disk where
  hasTurboJson := fun p => p == ["root"]
  hasPackageJson := fun _ => false
  pnpmWorkspaceGlobsOk := fun _ => false
  npmWorkspaceGlobsOk := fun _ => false
  pathExists := fun _ => true
  canonicalize := fun p => .ok p
  currentExe := .ok ["global", "turbo"]
  readPackageJson := fun _ => .ok ⟨"1.7.0"⟩

/-! ## Lemmas about the inference loop -/

/-- Once a fallback candidate is recorded, the `package.json` walk returns
the first workspace hit as multi-package, else the candidate as
single-package. -/
lemma inferLoop_some (disk : Disk) (first : FilePath) (l : List FilePath) :
    inferLoop disk l (some first) =
      match l.find? (fun p => isWorkspace disk p) with
      | some w => .ok ⟨w, RepoMode.MultiPackage⟩
      | none => .ok ⟨first, RepoMode.SinglePackage⟩ := by
  induction l with
  | nil => rfl
  | cons d rest ih =>
    by_cases h : isWorkspace disk d
    · simp [inferLoop, h, List.find?]
    · simp [inferLoop, h, List.find?, ih]

/-- The whole `package.json` walk from an empty accumulator: first
workspace hit wins, else the closest candidate, else the source's
error. -/
lemma inferLoop_none (disk : Disk) (l : List FilePath) :
    inferLoop disk l none =
      match l.find? (fun p => isWorkspace disk p), l.head? with
      | some w, _ => .ok ⟨w, RepoMode.MultiPackage⟩
      | none, some c => .ok ⟨c, RepoMode.SinglePackage⟩
      | none, none => .error "Unable to find `turbo.json` or `package.json` in current path" := by
  cases l with
  | nil => rfl
  | cons d rest =>
    by_cases h : isWorkspace disk d
    · simp [inferLoop, h, List.find?]
    · simp only [inferLoop, h, Option.isNone_none, if_true, if_false, Bool.false_eq_true,
        inferLoop_some, List.find?, List.head?]
      cases rest.find? (fun p => isWorkspace disk p) <;> simp [h]

/-- **C2.** With no `turbo.json` anywhere in the ancestry, inference
returns the closest `package.json`-bearing ancestor that reports workspace
membership as multi-package; with no workspace hit at all it returns the
closest `package.json`-bearing ancestor as single-package.  Closeness is
the order of `ancestors`, so a farther workspace never beats a closer one,
and the fallback is the closest descriptor-bearing ancestor. -/
theorem infer_no_marker_fallback (disk : Disk) (dir : FilePath)
    (hmarker : ∀ p ∈ ancestors dir, disk.hasTurboJson p = false) :
    (∀ w, ((ancestors dir).filter (fun p => disk.hasPackageJson p)).find?
        (fun p => isWorkspace disk p) = some w →
      RepoState.infer disk dir = .ok ⟨w, RepoMode.MultiPackage⟩) ∧
    (((ancestors dir).filter (fun p => disk.hasPackageJson p)).find?
        (fun p => isWorkspace disk p) = none →
      ∀ c, ((ancestors dir).filter (fun p => disk.hasPackageJson p)).head? = some c →
        RepoState.infer disk dir = .ok ⟨c, RepoMode.SinglePackage⟩) := by
  have hfind : (ancestors dir).find? (fun p => disk.hasTurboJson p) = none := by
    rw [List.find?_eq_none]
    intro p hp
    simp [hmarker p hp]
  constructor
  · intro w hw
    rw [RepoState.infer, hfind, inferLoop_none, hw]
  · intro hnone c hc
    rw [RepoState.infer, hfind, inferLoop_none, hnone, hc]

/-- Witness for C2 on the spec's concrete example tree. -/
theorem infer_no_marker_fallback_witness :
    (∀ p ∈ ancestors ["root", "pkgs", "a", "sub"], fallbackDisk.hasTurboJson p = false) ∧
    RepoState.infer fallbackDisk ["root", "pkgs", "a", "sub"] =
      .ok ⟨["root", "pkgs", "a"], RepoMode.MultiPackage⟩ :=
  ⟨by decide,
   (infer_no_marker_fallback fallbackDisk ["root", "pkgs", "a", "sub"] (by decide)).1
     ["root", "pkgs", "a"] (by decide)⟩

/-- **C3.** With a `turbo.json` somewhere in the ancestry, inference
succeeds at the closest such ancestor (the `find?` witness); the mode is
multi-package exactly when some known package manager (pnpm or npm)
reports workspace membership at that root, and only that root is
consulted. -/
theorem infer_marker_root (disk : Disk) (dir : FilePath) (r : FilePath)
    (h : (ancestors dir).find? (fun p => disk.hasTurboJson p) = some r) :
    RepoState.infer disk dir =
      .ok ⟨r, if disk.pnpmWorkspaceGlobsOk r || disk.npmWorkspaceGlobsOk r
              then RepoMode.MultiPackage else RepoMode.SinglePackage⟩ := by
  rw [RepoState.infer, h]
  rfl

/-- Witness for C3 on the spec's concrete example tree. -/
theorem infer_marker_root_witness :
    (ancestors ["root", "sub", "dir"]).find? (fun p => markerDisk.hasTurboJson p) =
      some ["root"] ∧
    RepoState.infer markerDisk ["root", "sub", "dir"] =
      .ok ⟨["root"], RepoMode.SinglePackage⟩ := by
  refine ⟨by decide, ?_⟩
  have h := infer_marker_root markerDisk ["root", "sub", "dir"] ["root"] (by decide)
  simpa using h

/-! ## Lemmas about the argument-splitting loop -/

/-- `parseLoop` runs left to right over an appended list. -/
lemma parseLoop_append (l1 l2 : List String) : ∀ s : ParseState,
    parseLoop s (l1 ++ l2) =
      match parseLoop s l1 with
      | .error e => .error e
      | .ok s' => parseLoop s' l2 := by
  induction l1 with
  | nil => intro s; rfl
  | cons a rest ih =>
    intro s
    simp only [List.cons_append, parseLoop]
    cases parseStep s a with
    | error e => rfl
    | ok s' => exact ih s'

/-- In forwarding mode every token is appended to the forwarded set and
nothing else ever changes: forwarding mode is never exited. -/
lemma parseLoop_forwarded (l : List String) : ∀ s : ParseState,
    s.is_forwarded_args = true →
    parseLoop s l = .ok { s with forwarded_args := s.forwarded_args ++ l } := by
  induction l with
  | nil => intro s h; simp [parseLoop]
  | cons a rest ih =>
    intro s h
    simp only [parseLoop, parseStep, h, if_true]
    rw [ih _ (by simp [h])]
    simp

/-- A step on a token other than `--`, outside forwarding mode, stays
outside forwarding mode and leaves the forwarded set unchanged. -/
lemma parseStep_no_dash {s : ParseState} {arg : String} {s' : ParseState}
    (hfwd : s.is_forwarded_args = false) (harg : arg ≠ "--")
    (h : parseStep s arg = .ok s') :
    s'.is_forwarded_args = false ∧ s'.forwarded_args = s.forwarded_args := by
  unfold parseStep at h
  rw [hfwd] at h
  simp only [Bool.false_eq_true, if_false] at h
  split at h
  · cases h; exact ⟨rfl, rfl⟩
  · split at h
    · rename_i hdash
      exact absurd (by simpa using hdash) harg
    · split at h
      · cases h; exact ⟨rfl, rfl⟩
      · split at h
        · split at h
          · cases h
          · cases h; exact ⟨rfl, rfl⟩
        · cases h; exact ⟨rfl, rfl⟩

/-- Over a token list without `--`, the loop stays outside forwarding mode
and the forwarded set is untouched. -/
lemma parseLoop_no_dash (l : List String) (hl : "--" ∉ l) : ∀ s s' : ParseState,
    s.is_forwarded_args = false → parseLoop s l = .ok s' →
    s'.is_forwarded_args = false ∧ s'.forwarded_args = s.forwarded_args := by
  induction l with
  | nil =>
    intro s s' h hp
    simp only [parseLoop] at hp
    cases hp
    exact ⟨h, rfl⟩
  | cons a rest ih =>
    intro s s' h hp
    have ha : a ≠ "--" := fun e => hl (e ▸ List.mem_cons_self a rest)
    simp only [parseLoop] at hp
    cases hstep : parseStep s a with
    | error e => rw [hstep] at hp; cases hp
    | ok s1 =>
      rw [hstep] at hp
      obtain ⟨h1, h2⟩ := parseStep_no_dash h ha hstep
      obtain ⟨h3, h4⟩ := ih (fun hm => hl (List.mem_cons_of_mem _ hm)) s1 s' h1 hp
      exact ⟨h3, h4.trans h2⟩

/-- A step on `--` outside forwarding mode enters forwarding mode and
changes nothing else (in particular a pending `--cwd` stays pending). -/
lemma parseStep_dash {s : ParseState} (hfwd : s.is_forwarded_args = false) :
    parseStep s "--" = .ok { s with is_forwarded_args := true } := by
  have h1 : ("--" == "--skip-infer") = false := by decide
  have h2 : ("--" == "--") = true := by decide
  simp [parseStep, hfwd, h1, h2]

/-- Each step extends the dispatcher-facing set by nothing or by the token
itself. -/
lemma parseStep_remaining {s : ParseState} {arg : String} {s' : ParseState}
    (h : parseStep s arg = .ok s') :
    s'.remaining_turbo_args = s.remaining_turbo_args ∨
    s'.remaining_turbo_args = s.remaining_turbo_args ++ [arg] := by
  unfold parseStep at h
  split at h
  · cases h; left; rfl
  · split at h
    · cases h; left; rfl
    · split at h
      · cases h; left; rfl
      · split at h
        · cases h; left; rfl
        · split at h
          · split at h
            · cases h
            · cases h; left; rfl
          · cases h; right; rfl

/-- The dispatcher-facing tokens accumulated over a list form a
subsequence of that list: order preserved, nothing invented. -/
lemma parseLoop_remaining_sublist (l : List String) : ∀ s s' : ParseState,
    parseLoop s l = .ok s' →
    ∃ t, s'.remaining_turbo_args = s.remaining_turbo_args ++ t ∧ t.Sublist l := by
  induction l with
  | nil =>
    intro s s' hp
    simp only [parseLoop] at hp
    cases hp
    exact ⟨[], by simp, List.Sublist.refl []⟩
  | cons a rest ih =>
    intro s s' hp
    simp only [parseLoop] at hp
    cases hstep : parseStep s a with
    | error e => rw [hstep] at hp; cases hp
    | ok s1 =>
      rw [hstep] at hp
      obtain ⟨t, ht, hsub⟩ := ih s1 s' hp
      cases parseStep_remaining hstep with
      | inl he =>
        exact ⟨t, by rw [ht, he], hsub.cons a⟩
      | inr he =>
        refine ⟨a :: t, ?_, hsub.cons₂ a⟩
        rw [ht, he, List.append_assoc, List.singleton_append]

/-- **C5.** The first bare `--` partitions the arguments: parsing
`pre ++ -- :: post` behaves exactly like parsing `pre` except that the
forwarded set becomes `post` verbatim — every token after the separator is
forwarded in original order however flag-like it looks (later `--`,
`--skip-infer` and `--cwd` tokens included, since `post` is arbitrary),
forwarding mode is never exited, and the dispatcher-facing tokens are a
subsequence of the tokens before the separator, so both orders match the
input. -/
theorem parse_separator_partition (cd : FilePath) (pre post : List String)
    (h : "--" ∉ pre) :
    ShimArgs.parse cd (pre ++ "--" :: post) =
      (ShimArgs.parse cd pre).map (fun sa => { sa with forwarded_args := post }) ∧
    ∀ sa, ShimArgs.parse cd (pre ++ "--" :: post) = .ok sa →
      sa.remaining_turbo_args.Sublist pre := by
  have key : ShimArgs.parse cd (pre ++ "--" :: post) =
      (ShimArgs.parse cd pre).map (fun sa => { sa with forwarded_args := post }) := by
    unfold ShimArgs.parse
    rw [parseLoop_append]
    cases hpl : parseLoop initParseState pre with
    | error e => simp [Except.map]
    | ok s1 =>
      obtain ⟨hfwd1, hfa1⟩ := parseLoop_no_dash pre h initParseState s1 rfl hpl
      have hinit : initParseState.forwarded_args = [] := rfl
      rw [hinit] at hfa1
      have hdash := parseStep_dash hfwd1
      have hforw := parseLoop_forwarded post
        { s1 with is_forwarded_args := true } rfl
      simp only [parseLoop, hdash, hforw]
      by_cases hfound : s1.found_cwd_flag = true <;>
        simp [hfound, hfa1, Except.map]
  refine ⟨key, ?_⟩
  intro sa hsa
  rw [key] at hsa
  cases hp : ShimArgs.parse cd pre with
  | error e => rw [hp] at hsa; cases hsa
  | ok sa' =>
    rw [hp] at hsa
    simp only [Except.map] at hsa
    cases hsa
    unfold ShimArgs.parse at hp
    cases hpl : parseLoop initParseState pre with
    | error e => rw [hpl] at hp; cases hp
    | ok s1 =>
      rw [hpl] at hp
      dsimp only at hp
      by_cases hfound : s1.found_cwd_flag = true
      · rw [if_pos hfound] at hp; cases hp
      · rw [if_neg hfound] at hp
        cases hp
        obtain ⟨t, ht, hsub⟩ := parseLoop_remaining_sublist pre initParseState s1 hpl
        simpa [ht, show initParseState.remaining_turbo_args = [] from rfl] using hsub

/-- Witness for C5: a separator with flag-like tokens on both sides. -/
theorem parse_separator_partition_witness :
    ("--" ∉ ["build", "--skip-infer"]) ∧
    (ShimArgs.parse ["d"] (["build", "--skip-infer"] ++ "--" :: ["--cwd", "--", "--skip-infer"]) =
       (ShimArgs.parse ["d"] ["build", "--skip-infer"]).map
         (fun sa => { sa with forwarded_args := ["--cwd", "--", "--skip-infer"] }) ∧
     ∀ sa, ShimArgs.parse ["d"] (["build", "--skip-infer"] ++ "--" :: ["--cwd", "--", "--skip-infer"]) = .ok sa →
       sa.remaining_turbo_args.Sublist ["build", "--skip-infer"]) :=
  ⟨by decide,
   parse_separator_partition ["d"] ["build", "--skip-infer"]
     ["--cwd", "--", "--skip-infer"] (by decide)⟩

/-- A `--cwd` token with no pending value and no earlier override marks a
value as pending. -/
lemma parseStep_cwd_flag {s : ParseState} (hfwd : s.is_forwarded_args = false)
    (hfound : s.found_cwd_flag = false) (hcwd : s.cwd = none) :
    parseStep s "--cwd" = .ok { s with found_cwd_flag := true } := by
  have h1 : ("--cwd" == "--skip-infer") = false := by decide
  have h2 : ("--cwd" == "--") = false := by decide
  have h3 : ("--cwd" == "--cwd") = true := by decide
  simp [parseStep, hfwd, hfound, hcwd, h1, h2, h3]

/-- A `--cwd` token when an override was already recorded is the
source's "multiple `--cwd` flags" error. -/
lemma parseStep_multiple_cwd {s : ParseState} (hfwd : s.is_forwarded_args = false)
    (hfound : s.found_cwd_flag = false) (hcwd : s.cwd.isSome = true) :
    parseStep s "--cwd" = .error "cannot have multiple `--cwd` flags in command" := by
  have h1 : ("--cwd" == "--skip-infer") = false := by decide
  have h2 : ("--cwd" == "--") = false := by decide
  have h3 : ("--cwd" == "--cwd") = true := by decide
  simp [parseStep, hfwd, hfound, hcwd, h1, h2, h3]

/-- With a value pending, any token other than `--skip-infer` and `--`
(a literal `--cwd` included) is consumed as the working directory. -/
lemma parseStep_value {s : ParseState} {arg : String}
    (hfwd : s.is_forwarded_args = false) (hfound : s.found_cwd_flag = true)
    (h1 : arg ≠ "--skip-infer") (h2 : arg ≠ "--") :
    parseStep s arg =
      .ok { s with cwd := some (stringToPath arg), found_cwd_flag := false } := by
  have hb1 : (arg == "--skip-infer") = false := by simp [h1]
  have hb2 : (arg == "--") = false := by simp [h2]
  simp [parseStep, hfwd, hfound, hb1, hb2]

/-- Over tokens that are neither `--cwd`, `--` nor a pending value, the
loop accumulates exactly the non-`--skip-infer` tokens as dispatcher-facing
arguments, in order, and records whether `--skip-infer` occurred; `cwd`,
the pending-value flag, forwarding mode and the forwarded set are
untouched. -/
lemma parseLoop_plain (l : List String) (h1 : "--cwd" ∉ l) (h2 : "--" ∉ l) :
    ∀ s : ParseState, s.is_forwarded_args = false → s.found_cwd_flag = false →
    parseLoop s l = .ok { s with
      skip_infer := s.skip_infer || l.contains "--skip-infer",
      remaining_turbo_args :=
        s.remaining_turbo_args ++ l.filter (fun a => a != "--skip-infer") } := by
  induction l with
  | nil => intro s hfwd hfound; simp [parseLoop]
  | cons a rest ih =>
    intro s hfwd hfound
    have ha1 : a ≠ "--cwd" := fun e => h1 (e ▸ List.mem_cons_self a rest)
    have ha2 : a ≠ "--" := fun e => h2 (e ▸ List.mem_cons_self a rest)
    have hr1 : "--cwd" ∉ rest := fun hm => h1 (List.mem_cons_of_mem _ hm)
    have hr2 : "--" ∉ rest := fun hm => h2 (List.mem_cons_of_mem _ hm)
    by_cases ha : a = "--skip-infer"
    · subst ha
      have hstep : parseStep s "--skip-infer" = .ok { s with skip_infer := true } := by
        simp [parseStep, hfwd]
      simp only [parseLoop, hstep]
      rw [ih hr1 hr2 { s with skip_infer := true } hfwd hfound]
      simp [List.contains]
    · have hb1 : (a == "--skip-infer") = false := by simp [ha]
      have hb2 : (a == "--") = false := by simp [ha2]
      have hb3 : (a == "--cwd") = false := by simp [ha1]
      have hstep : parseStep s a =
          .ok { s with remaining_turbo_args := s.remaining_turbo_args ++ [a] } := by
        simp [parseStep, hfwd, hfound, hb1, hb2, hb3]
      simp only [parseLoop, hstep]
      rw [ih hr1 hr2
        { s with remaining_turbo_args := s.remaining_turbo_args ++ [a] } hfwd hfound]
      simp [List.contains, List.filter, hb1, bne, eq_comm, ha]

/-- A run of `--skip-infer` tokens only sets the skip-inference flag; in
particular a pending `--cwd` value stays pending across it. -/
lemma parseLoop_skip_toks (m : List String) (hm : ∀ a ∈ m, a = "--skip-infer") :
    ∀ s : ParseState, s.is_forwarded_args = false →
    parseLoop s m = .ok { s with skip_infer := s.skip_infer || !m.isEmpty } := by
  induction m with
  | nil => intro s hfwd; simp [parseLoop]
  | cons a rest ih =>
    intro s hfwd
    have ha : a = "--skip-infer" := hm a (List.mem_cons_self a rest)
    subst ha
    have hstep : parseStep s "--skip-infer" = .ok { s with skip_infer := true } := by
      simp [parseStep, hfwd]
    simp only [parseLoop, hstep]
    rw [ih (fun b hb => hm b (List.mem_cons_of_mem _ hb)) { s with skip_infer := true } hfwd]
    simp

/-- Over a token list without `--cwd`, the loop never fails, and neither
the recorded override nor the pending-value flag changes (when no value
was pending). -/
lemma parseLoop_no_cwd (l : List String) (h : "--cwd" ∉ l) :
    ∀ s : ParseState, s.found_cwd_flag = false →
    ∃ s', parseLoop s l = .ok s' ∧ s'.cwd = s.cwd ∧ s'.found_cwd_flag = false := by
  induction l with
  | nil => intro s hfound; exact ⟨s, rfl, rfl, hfound⟩
  | cons a rest ih =>
    intro s hfound
    have ha : a ≠ "--cwd" := fun e => h (e ▸ List.mem_cons_self a rest)
    have hr : "--cwd" ∉ rest := fun hm => h (List.mem_cons_of_mem _ hm)
    have step : ∃ s1, parseStep s a = .ok s1 ∧ s1.cwd = s.cwd ∧ s1.found_cwd_flag = false := by
      unfold parseStep
      by_cases hfwd : s.is_forwarded_args = true
      · exact ⟨{ s with forwarded_args := s.forwarded_args ++ [a] },
          by rw [if_pos hfwd], rfl, hfound⟩
      · rw [if_neg hfwd]
        by_cases hb1 : (a == "--skip-infer") = true
        · exact ⟨{ s with skip_infer := true }, by rw [if_pos hb1], rfl, hfound⟩
        · rw [if_neg hb1]
          by_cases hb2 : (a == "--") = true
          · exact ⟨{ s with is_forwarded_args := true }, by rw [if_pos hb2], rfl, hfound⟩
          · rw [if_neg hb2]
            rw [if_neg (by simp [hfound])]
            rw [if_neg (by simp [ha] : ¬(a == "--cwd") = true)]
            exact ⟨{ s with remaining_turbo_args := s.remaining_turbo_args ++ [a] },
              rfl, rfl, hfound⟩
    obtain ⟨s1, hs1, hc1, hf1⟩ := step
    obtain ⟨s', hs', hc', hf'⟩ := ih hr s1 hf1
    exact ⟨s', by simp only [parseLoop, hs1, hs'], hc'.trans hc1, hf'⟩

/-- Chain the loop across an append whose first half succeeded. -/
lemma parseLoop_append_ok (l1 l2 : List String) {s s1 : ParseState}
    (h : parseLoop s l1 = .ok s1) :
    parseLoop s (l1 ++ l2) = parseLoop s1 l2 := by
  rw [parseLoop_append, h]

/-- Unfold one successful step of the loop. -/
lemma parseLoop_cons_ok (arg : String) (rest : List String) {s s1 : ParseState}
    (h : parseStep s arg = .ok s1) :
    parseLoop s (arg :: rest) = parseLoop s1 rest := by
  simp only [parseLoop, h]

/-- A failing step fails the whole loop. -/
lemma parseLoop_cons_error (arg : String) (rest : List String) {s : ParseState}
    {e : String} (h : parseStep s arg = .error e) :
    parseLoop s (arg :: rest) = .error e := by
  simp only [parseLoop, h]

/-- `ShimArgs::parse` in terms of the final loop state. -/
lemma parse_of_parseLoop_ok {cd : FilePath} {args : List String} {s : ParseState}
    (h : parseLoop initParseState args = .ok s) :
    ShimArgs.parse cd args =
      if s.found_cwd_flag then .error "No value assigned to `--cwd` argument"
      else .ok ⟨s.cwd.getD cd, s.skip_infer, s.remaining_turbo_args, s.forwarded_args⟩ := by
  unfold ShimArgs.parse
  rw [h]

/-- A failing loop fails `ShimArgs::parse` with the same error. -/
lemma parse_of_parseLoop_error {cd : FilePath} {args : List String} {e : String}
    (h : parseLoop initParseState args = .error e) :
    ShimArgs.parse cd args = .error e := by
  unfold ShimArgs.parse
  rw [h]

/-- No step ever clears the skip-inference flag. -/
lemma parseStep_skip_mono {s : ParseState} {arg : String} {s' : ParseState}
    (h : parseStep s arg = .ok s') (hs : s.skip_infer = true) :
    s'.skip_infer = true := by
  unfold parseStep at h
  split at h
  · cases h; exact hs
  · split at h
    · cases h; rfl
    · split at h
      · cases h; exact hs
      · split at h
        · cases h; exact hs
        · split at h
          · split at h
            · cases h
            · cases h; exact hs
          · cases h; exact hs

/-- The loop never clears the skip-inference flag. -/
lemma parseLoop_skip_mono (l : List String) : ∀ s s' : ParseState,
    parseLoop s l = .ok s' → s.skip_infer = true → s'.skip_infer = true := by
  induction l with
  | nil =>
    intro s s' hp hs
    simp only [parseLoop] at hp
    cases hp
    exact hs
  | cons a rest ih =>
    intro s s' hp hs
    simp only [parseLoop] at hp
    cases hstep : parseStep s a with
    | error e => rw [hstep] at hp; cases hp
    | ok s1 =>
      rw [hstep] at hp
      exact ih s1 s' hp (parseStep_skip_mono hstep hs)

/-- Shared spine for C6/C10: after clean tokens, `--cwd`, a run of
`--skip-infer` tokens, a consumable value `x` and further clean tokens,
parsing succeeds, the working directory is `x`, and a nonempty
`--skip-infer` run has set the skip flag. -/
lemma parse_cwd_value_general (cd : FilePath) (l1 m l2 : List String) (x : String)
    (hl1c : "--cwd" ∉ l1) (hl1d : "--" ∉ l1)
    (hm : ∀ a ∈ m, a = "--skip-infer")
    (hx1 : x ≠ "--skip-infer") (hx2 : x ≠ "--")
    (hl2c : "--cwd" ∉ l2) :
    ∃ sa, ShimArgs.parse cd (l1 ++ "--cwd" :: (m ++ x :: l2)) = .ok sa ∧
      sa.cwd = stringToPath x ∧ (m ≠ [] → sa.skip_infer = true) := by
  have hl1 := parseLoop_plain l1 hl1c hl1d initParseState rfl rfl
  have e1 := (parseLoop_append_ok l1 ("--cwd" :: (m ++ x :: l2)) hl1).trans
    (parseLoop_cons_ok "--cwd" (m ++ x :: l2) (parseStep_cwd_flag rfl rfl rfl))
  have e2 := e1.trans (parseLoop_append_ok m (x :: l2) (parseLoop_skip_toks m hm _ rfl))
  have e3 := e2.trans (parseLoop_cons_ok x l2 (parseStep_value rfl rfl hx1 hx2))
  obtain ⟨s5, hs5, hc5, hf5⟩ := parseLoop_no_cwd l2 hl2c
    (ParseState.mk false (some (stringToPath x))
      ((false || l1.contains "--skip-infer") || !m.isEmpty)
      (List.filter (fun a => a != "--skip-infer") l1) [] false) rfl
  have efull := e3.trans hs5
  rw [parse_of_parseLoop_ok efull, if_neg (by simp [hf5])]
  refine ⟨_, rfl, ?_, ?_⟩
  · show s5.cwd.getD cd = stringToPath x
    rw [hc5]
    rfl
  · intro hm0
    show s5.skip_infer = true
    refine parseLoop_skip_mono l2 _ _ hs5 ?_
    cases m with
    | nil => exact absurd rfl hm0
    | cons a mr => simp

/-- Shared spine for C6/C10: clean tokens, `--cwd`, then only
`--skip-infer` tokens to the end of the list leave the value pending and
fail with the source's "no value" error. -/
lemma parse_cwd_no_value (cd : FilePath) (l1 m : List String)
    (hl1c : "--cwd" ∉ l1) (hl1d : "--" ∉ l1)
    (hm : ∀ a ∈ m, a = "--skip-infer") :
    ShimArgs.parse cd (l1 ++ "--cwd" :: m) =
      .error "No value assigned to `--cwd` argument" := by
  have hl1 := parseLoop_plain l1 hl1c hl1d initParseState rfl rfl
  have e1 := (parseLoop_append_ok l1 ("--cwd" :: m) hl1).trans
    (parseLoop_cons_ok "--cwd" m (parseStep_cwd_flag rfl rfl rfl))
  have e2 := e1.trans (parseLoop_skip_toks m hm _ rfl)
  rw [parse_of_parseLoop_ok e2, if_pos rfl]

/-- Shared spine for C6/C10: a `--` encountered while a `--cwd` value is
pending enters forwarding mode; every later token is forwarded, none is
consumed as the value, and parsing fails with the "no value" error. -/
lemma parse_cwd_dash_error (cd : FilePath) (l1 m post : List String)
    (hl1c : "--cwd" ∉ l1) (hl1d : "--" ∉ l1)
    (hm : ∀ a ∈ m, a = "--skip-infer") :
    ShimArgs.parse cd (l1 ++ "--cwd" :: (m ++ "--" :: post)) =
      .error "No value assigned to `--cwd` argument" := by
  have hl1 := parseLoop_plain l1 hl1c hl1d initParseState rfl rfl
  have e1 := (parseLoop_append_ok l1 ("--cwd" :: (m ++ "--" :: post)) hl1).trans
    (parseLoop_cons_ok "--cwd" (m ++ "--" :: post) (parseStep_cwd_flag rfl rfl rfl))
  have e2 := e1.trans (parseLoop_append_ok m ("--" :: post) (parseLoop_skip_toks m hm _ rfl))
  have e3 := e2.trans (parseLoop_cons_ok "--" post (parseStep_dash rfl))
  have e4 := e3.trans (parseLoop_forwarded post _ rfl)
  rw [parse_of_parseLoop_ok e4, if_pos rfl]

/-- **C6 counterexample.** The claim says a `--cwd` flag followed by a
next token X always parses successfully with working directory X; for
X = `--skip-infer` the source instead treats the token as the
skip-inference flag and parsing fails with the "no value" error. -/
theorem parse_cwd_skip_infer_value_fails :
    ShimArgs.parse ["d"] ["--cwd", "--skip-infer"] =
      .error "No value assigned to `--cwd` argument" := by decide

/-- **C6 (amended).** A single `--cwd` followed by a next token X *other
than `--skip-infer` and `--`* parses successfully with working directory
X; a second `--cwd` flag fails with the "multiple `--cwd` flags" error; a
trailing `--cwd` with no following token fails with the "no value" error;
and with no `--cwd` at all the working directory defaults to the process
current directory. -/
theorem parse_cwd_flag_behavior (cd : FilePath) (l1 l2 rest l : List String) (x : String)
    (hl1c : "--cwd" ∉ l1) (hl1d : "--" ∉ l1)
    (hl2c : "--cwd" ∉ l2) (hl2d : "--" ∉ l2)
    (hx1 : x ≠ "--skip-infer") (hx2 : x ≠ "--")
    (hlc : "--cwd" ∉ l) :
    (∃ sa, ShimArgs.parse cd (l1 ++ "--cwd" :: x :: l2) = .ok sa ∧
       sa.cwd = stringToPath x) ∧
    ShimArgs.parse cd (l1 ++ "--cwd" :: x :: (l2 ++ "--cwd" :: rest)) =
      .error "cannot have multiple `--cwd` flags in command" ∧
    ShimArgs.parse cd (l1 ++ ["--cwd"]) = .error "No value assigned to `--cwd` argument" ∧
    (∀ sa, ShimArgs.parse cd l = .ok sa → sa.cwd = cd) := by
  refine ⟨?_, ?_, ?_, ?_⟩
  · obtain ⟨sa, hsa, hcwd, _⟩ :=
      parse_cwd_value_general cd l1 [] l2 x hl1c hl1d (by simp) hx1 hx2 hl2c
    exact ⟨sa, by simpa using hsa, hcwd⟩
  · have hl1p := parseLoop_plain l1 hl1c hl1d initParseState rfl rfl
    have e1 := (parseLoop_append_ok l1 ("--cwd" :: x :: (l2 ++ "--cwd" :: rest)) hl1p).trans
      (parseLoop_cons_ok "--cwd" (x :: (l2 ++ "--cwd" :: rest)) (parseStep_cwd_flag rfl rfl rfl))
    have e2 := e1.trans
      (parseLoop_cons_ok x (l2 ++ "--cwd" :: rest) (parseStep_value rfl rfl hx1 hx2))
    obtain ⟨s4, hs4, hc4, hf4⟩ := parseLoop_no_cwd l2 hl2c
      (ParseState.mk false (some (stringToPath x)) (false || l1.contains "--skip-infer")
        (List.filter (fun a => a != "--skip-infer") l1) [] false) rfl
    obtain ⟨hfw4, hfa4⟩ := parseLoop_no_dash l2 hl2d
      (ParseState.mk false (some (stringToPath x)) (false || l1.contains "--skip-infer")
        (List.filter (fun a => a != "--skip-infer") l1) [] false) s4 rfl hs4
    have e3 := e2.trans (parseLoop_append_ok l2 ("--cwd" :: rest) hs4)
    have e4 := e3.trans (parseLoop_cons_error "--cwd" rest
      (parseStep_multiple_cwd hfw4 hf4 (by rw [hc4]; rfl)))
    exact parse_of_parseLoop_error e4
  · simpa using parse_cwd_no_value cd l1 [] hl1c hl1d (by simp)
  · intro sa hsa
    obtain ⟨s', hs', hc', hf'⟩ := parseLoop_no_cwd l hlc initParseState rfl
    rw [parse_of_parseLoop_ok hs', if_neg (by simp [hf'])] at hsa
    injection hsa with h
    subst h
    show s'.cwd.getD cd = cd
    rw [hc']
    rfl

/-- Witness for C6 on concrete argument lists. -/
theorem parse_cwd_flag_behavior_witness :
    ("--cwd" ∉ ["build"]) ∧ ("--" ∉ ["build"]) ∧ ("--cwd" ∉ ["lint"]) ∧
    ("--" ∉ ["lint"]) ∧ ("pkg" ≠ "--skip-infer") ∧ ("pkg" ≠ "--") ∧
    ("--cwd" ∉ ["t"]) ∧
    ((∃ sa, ShimArgs.parse ["d"] (["build"] ++ "--cwd" :: "pkg" :: ["lint"]) = .ok sa ∧
        sa.cwd = stringToPath "pkg") ∧
     ShimArgs.parse ["d"] (["build"] ++ "--cwd" :: "pkg" :: (["lint"] ++ "--cwd" :: ["r"])) =
       .error "cannot have multiple `--cwd` flags in command" ∧
     ShimArgs.parse ["d"] (["build"] ++ ["--cwd"]) =
       .error "No value assigned to `--cwd` argument" ∧
     (∀ sa, ShimArgs.parse ["d"] ["t"] = .ok sa → sa.cwd = ["d"])) :=
  ⟨by decide, by decide, by decide, by decide, by decide, by decide, by decide,
   parse_cwd_flag_behavior ["d"] ["build"] ["lint"] ["r"] ["t"] "pkg"
     (by decide) (by decide) (by decide) (by decide) (by decide) (by decide) (by decide)⟩

/-- **C10 counterexample.** The claim says that after `--cwd`, a `--`
takes its separator meaning while the parser keeps waiting and the value
becomes the next token other than `--skip-infer`/`--` (here `x`); the
source instead forwards everything after `--` and fails with the
"no value" error. -/
theorem parse_pending_cwd_dash_fails :
    ShimArgs.parse ["d"] ["--cwd", "--", "x"] =
      .error "No value assigned to `--cwd` argument" := by decide

/-- **C10 (amended).** While a `--cwd` value is pending, `--skip-infer`
tokens take their flag meaning and are not consumed: the value becomes
the next token that is neither `--skip-infer` nor `--` (a second literal
`--cwd` included, as the witness instantiates).  If instead a `--` is
reached while the value is pending, forwarding mode is entered
permanently, no later token is consumed as the value, and parsing fails
with the "no value" error; the same error results when the list ends
while the value is pending. -/
theorem parse_pending_cwd_flag_tokens (cd : FilePath) (l1 m l2 : List String) (x : String)
    (hl1c : "--cwd" ∉ l1) (hl1d : "--" ∉ l1)
    (hm : ∀ a ∈ m, a = "--skip-infer")
    (hx1 : x ≠ "--skip-infer") (hx2 : x ≠ "--")
    (hl2c : "--cwd" ∉ l2) :
    (∃ sa, ShimArgs.parse cd (l1 ++ "--cwd" :: (m ++ x :: l2)) = .ok sa ∧
       sa.cwd = stringToPath x ∧ (m ≠ [] → sa.skip_infer = true)) ∧
    (∀ post, ShimArgs.parse cd (l1 ++ "--cwd" :: (m ++ "--" :: post)) =
       .error "No value assigned to `--cwd` argument") ∧
    ShimArgs.parse cd (l1 ++ "--cwd" :: m) =
      .error "No value assigned to `--cwd` argument" :=
  ⟨parse_cwd_value_general cd l1 m l2 x hl1c hl1d hm hx1 hx2 hl2c,
   fun post => parse_cwd_dash_error cd l1 m post hl1c hl1d hm,
   parse_cwd_no_value cd l1 m hl1c hl1d hm⟩

/-- Witness for C10: a pending `--cwd` skips a `--skip-infer` token and
then accepts a second literal `--cwd` as the value. -/
theorem parse_pending_cwd_flag_tokens_witness :
    ("--cwd" ∉ ([] : List String)) ∧ ("--" ∉ ([] : List String)) ∧
    (∀ a ∈ ["--skip-infer"], a = "--skip-infer") ∧
    ("--cwd" ≠ "--skip-infer") ∧ ("--cwd" ≠ "--") ∧
    ("--cwd" ∉ ([] : List String)) ∧
    ((∃ sa, ShimArgs.parse ["d"] ([] ++ "--cwd" :: (["--skip-infer"] ++ "--cwd" :: [])) = .ok sa ∧
        sa.cwd = stringToPath "--cwd" ∧ (["--skip-infer"] ≠ ([] : List String) → sa.skip_infer = true)) ∧
     (∀ post, ShimArgs.parse ["d"] ([] ++ "--cwd" :: (["--skip-infer"] ++ "--" :: post)) =
        .error "No value assigned to `--cwd` argument") ∧
     ShimArgs.parse ["d"] ([] ++ "--cwd" :: ["--skip-infer"]) =
       .error "No value assigned to `--cwd` argument") :=
  ⟨by decide, by decide, by decide, by decide, by decide, by decide,
   parse_pending_cwd_flag_tokens ["d"] [] ["--skip-infer"] [] "--cwd"
     (by decide) (by decide) (by decide) (by decide) (by decide) (by decide)⟩

/-- **C4.** The version gate accepts `1.7.0-canary.0`, `1.7.0` and
`1.8.0` against `>=1.7.0-canary.0` and rejects `1.6.3`; semantic-version
precedence orders the pre-release `1.7.0-canary.0` before the release
`1.7.0`; a manifest read/JSON error propagates unchanged, and an invalid
version string is an error, not a recovery. -/
theorem skip_infer_version_gate (e : String) (pkg : PackageJson)
    (hbad : parseVersion pkg.version = none) :
    local_turbo_supports_skip_infer (.ok ⟨"1.7.0-canary.0"⟩) = .ok true ∧
    local_turbo_supports_skip_infer (.ok ⟨"1.7.0"⟩) = .ok true ∧
    local_turbo_supports_skip_infer (.ok ⟨"1.8.0"⟩) = .ok true ∧
    local_turbo_supports_skip_infer (.ok ⟨"1.6.3"⟩) = .ok false ∧
    versionLt ⟨1, 7, 0, [.alpha "canary", .num 0], []⟩ ⟨1, 7, 0, [], []⟩ = true ∧
    local_turbo_supports_skip_infer (.error e) = .error e ∧
    local_turbo_supports_skip_infer (.ok pkg) = .error "invalid semver version string" := by
  refine ⟨by decide, by decide, by decide, by decide, by decide, rfl, ?_⟩
  unfold local_turbo_supports_skip_infer
  dsimp only
  rw [hbad]

/-- Witness for C4 with a concrete unreadable-manifest error and a
concrete invalid version string. -/
theorem skip_infer_version_gate_witness :
    parseVersion (PackageJson.mk "not-a-version").version = none ∧
    (local_turbo_supports_skip_infer (.ok ⟨"1.7.0-canary.0"⟩) = .ok true ∧
     local_turbo_supports_skip_infer (.ok ⟨"1.7.0"⟩) = .ok true ∧
     local_turbo_supports_skip_infer (.ok ⟨"1.8.0"⟩) = .ok true ∧
     local_turbo_supports_skip_infer (.ok ⟨"1.6.3"⟩) = .ok false ∧
     versionLt ⟨1, 7, 0, [.alpha "canary", .num 0], []⟩ ⟨1, 7, 0, [], []⟩ = true ∧
     local_turbo_supports_skip_infer (.error "open failed") = .error "open failed" ∧
     local_turbo_supports_skip_infer (.ok ⟨"not-a-version"⟩) =
       .error "invalid semver version string") :=
  ⟨by decide, skip_infer_version_gate "open failed" ⟨"not-a-version"⟩ (by decide)⟩

/-- **C9.** With the skip-inference flag set, the dispatcher immediately
runs the current binary with no repository context: the result is the
same for every filesystem and every state of the environment override, no
inference is consulted and no child process is spawned. -/
theorem run_skip_infer_bypasses_inference (env : Bool) (disk : Disk) (sa : ShimArgs)
    (w : Option Int) (h : sa.skip_infer = true) :
    run env disk sa w = .ok ([], .RunCurrent none) := by
  simp [run, h]

/-- Witness for C9 on a filesystem where inference would fail and with
the override set. -/
theorem run_skip_infer_bypasses_inference_witness :
    (ShimArgs.mk [] true [] []).skip_infer = true ∧
    run true emptyDisk ⟨[], true, [], []⟩ none = .ok ([], .RunCurrent none) :=
  ⟨rfl, run_skip_infer_bypasses_inference true emptyDisk ⟨[], true, [], []⟩ none rfl⟩

/-- Inference fails exactly on trees where no ancestor of the starting
directory carries `turbo.json` or `package.json`. -/
lemma infer_error_iff (disk : Disk) (dir : FilePath) :
    (∃ e, RepoState.infer disk dir = .error e) ↔
      ∀ p ∈ ancestors dir, disk.hasTurboJson p = false ∧ disk.hasPackageJson p = false := by
  constructor
  · rintro ⟨e, he⟩ p hp
    cases hfind : (ancestors dir).find? (fun q => disk.hasTurboJson q) with
    | some r => rw [RepoState.infer, hfind] at he; simp at he
    | none =>
      have hturbo := List.find?_eq_none.mp hfind
      rw [RepoState.infer, hfind, inferLoop_none] at he
      cases hws : (List.filter (fun q => disk.hasPackageJson q) (ancestors dir)).find?
          (fun q => isWorkspace disk q) with
      | some wk => rw [hws] at he; simp at he
      | none =>
        rw [hws] at he
        cases hh : (List.filter (fun q => disk.hasPackageJson q) (ancestors dir)).head? with
        | some c => rw [hh] at he; simp at he
        | none =>
          have hfilter : List.filter (fun q => disk.hasPackageJson q) (ancestors dir) = [] := by
            rwa [List.head?_eq_none_iff] at hh
          have hpkg := List.filter_eq_nil_iff.mp hfilter
          exact ⟨by simpa using hturbo p hp, by simpa using hpkg p hp⟩
  · intro hall
    have hfind : (ancestors dir).find? (fun q => disk.hasTurboJson q) = none := by
      rw [List.find?_eq_none]
      intro p hp
      simp [(hall p hp).1]
    have hfilter : List.filter (fun q => disk.hasPackageJson q) (ancestors dir) = [] := by
      rw [List.filter_eq_nil_iff]
      intro p hp
      simp [(hall p hp).2]
    refine ⟨"Unable to find `turbo.json` or `package.json` in current path", ?_⟩
    rw [RepoState.infer, hfind, hfilter]
    rfl

/-- **C1 counterexample.** With the `TURBO_BINARY_PATH` override set and
no project marker or package descriptor anywhere, `run` propagates the
inference error (`RepoState::infer(&args.cwd)?`) instead of falling back
to the current binary: the claimed recovery does not cover the override
path. -/
theorem run_override_inference_failure_propagates :
    run true emptyDisk ⟨[], false, [], []⟩ none =
      .error "Unable to find `turbo.json` or `package.json` in current path" := by decide

/-- **C1 (amended).** Without the skip-inference flag, inference fails
exactly when no ancestor of the working directory carries `turbo.json` or
`package.json`; when it fails *and the environment override is unset*,
the dispatcher does not abort: it emits the two diagnostic lines on the
error stream and runs the current binary with no repository context.
With the override set, the inference error propagates and the invocation
aborts. -/
theorem run_inference_failure_fallback (disk : Disk) (sa : ShimArgs) (w : Option Int)
    (hskip : sa.skip_infer = false) :
    ((∃ e, RepoState.infer disk sa.cwd = .error e) ↔
      ∀ p ∈ ancestors sa.cwd, disk.hasTurboJson p = false ∧ disk.hasPackageJson p = false) ∧
    ∀ e, RepoState.infer disk sa.cwd = .error e →
      run false disk sa w = .ok (["Repository inference failed: " ++ e,
        "Running command as global turbo"], .RunCurrent none) ∧
      run true disk sa w = .error e := by
  refine ⟨infer_error_iff disk sa.cwd, ?_⟩
  intro e he
  constructor
  · simp [run, hskip, he]
  · simp [run, hskip, he]

/-- Witness for C1 on the empty filesystem. -/
theorem run_inference_failure_fallback_witness :
    (ShimArgs.mk ["w"] false [] []).skip_infer = false ∧
    (((∃ e, RepoState.infer emptyDisk (ShimArgs.mk ["w"] false [] []).cwd = .error e) ↔
       ∀ p ∈ ancestors (ShimArgs.mk ["w"] false [] []).cwd,
         emptyDisk.hasTurboJson p = false ∧ emptyDisk.hasPackageJson p = false) ∧
     ∀ e, RepoState.infer emptyDisk (ShimArgs.mk ["w"] false [] []).cwd = .error e →
       run false emptyDisk ⟨["w"], false, [], []⟩ none =
         .ok (["Repository inference failed: " ++ e,
           "Running command as global turbo"], .RunCurrent none) ∧
       run true emptyDisk ⟨["w"], false, [], []⟩ none = .error e) :=
  ⟨rfl, run_inference_failure_fallback emptyDisk ⟨["w"], false, [], []⟩ none rfl⟩

/-- **C8.** After inference, delegation is decided as follows: if the
candidate `<root>/node_modules/.bin/turbo` does not exist, the current
binary runs with the inferred state — with no assumption on
`canonicalize`, so the existence check precedes canonicalization and no
child is ever spawned; if it exists and canonicalizes to the current
executable, the current binary runs; if the canonical paths differ, the
candidate is spawned.  Conversely any delegated outcome presupposes an
existing candidate whose canonicalization is the spawned program. -/
theorem run_correct_turbo_decision (disk : Disk) (st : RepoState) (sa : ShimArgs)
    (w : Option Int) :
    (disk.pathExists (localTurboPath st.root) = false →
      st.run_correct_turbo disk sa w = .ok (.RunCurrent (some st))) ∧
    (∀ c ex, disk.pathExists (localTurboPath st.root) = true →
      disk.canonicalize (localTurboPath st.root) = .ok c →
      disk.currentExe = .ok ex →
      (c = ex → st.run_correct_turbo disk sa w = .ok (.RunCurrent (some st))) ∧
      (c ≠ ex → st.run_correct_turbo disk sa w = st.spawn_local_turbo disk c sa w)) ∧
    (∀ spec code, st.run_correct_turbo disk sa w = .ok (.Delegated spec code) →
      disk.pathExists (localTurboPath st.root) = true ∧
      disk.canonicalize (localTurboPath st.root) = .ok spec.program) := by
  refine ⟨?_, ?_, ?_⟩
  · intro h
    simp [RepoState.run_correct_turbo, should_run_current_turbo, h]
  · intro c ex hex hcan hcur
    constructor
    · intro hce
      subst hce
      simp [RepoState.run_correct_turbo, should_run_current_turbo, hex, hcan, hcur]
    · intro hne
      have hbeq : (c == ex) = false := by simp [hne]
      simp [RepoState.run_correct_turbo, should_run_current_turbo, hex, hcan, hcur, hbeq]
  · intro spec code h
    unfold RepoState.run_correct_turbo at h
    dsimp only at h
    cases hs : should_run_current_turbo disk (localTurboPath st.root) with
    | error e => rw [hs] at h; simp at h
    | ok b =>
      rw [hs] at h
      cases b with
      | true => simp at h
      | false =>
        have hexists : disk.pathExists (localTurboPath st.root) = true := by
          by_contra hne
          have hfalse : disk.pathExists (localTurboPath st.root) = false := by
            simpa using hne
          unfold should_run_current_turbo at hs
          rw [hfalse] at hs
          simp at hs
        refine ⟨hexists, ?_⟩
        cases hcan : disk.canonicalize (localTurboPath st.root) with
        | error e => rw [hcan] at h; simp at h
        | ok c =>
          rw [hcan] at h
          unfold RepoState.spawn_local_turbo at h
          cases hcr : disk.canonicalize st.root with
          | error e => rw [hcr] at h; simp at h
          | ok cwd =>
            rw [hcr] at h
            cases hg : local_turbo_supports_skip_infer
                (disk.readPackageJson (localTurboManifestPath st.root)) with
            | error e => rw [hg] at h; simp at h
            | ok sup =>
              rw [hg] at h
              dsimp only at h
              simp only [Except.ok.injEq, Payload.Delegated.injEq] at h
              obtain ⟨hspec, hcode⟩ := h
              subst hspec
              rfl

/-- Witness for C8: on a filesystem without the candidate binary the
dispatcher runs the current binary even though canonicalization would
fail. -/
theorem run_correct_turbo_decision_witness :
    emptyDisk.pathExists (localTurboPath ["root"]) = false ∧
    RepoState.run_correct_turbo ⟨["root"], RepoMode.SinglePackage⟩ emptyDisk
      ⟨[], false, [], []⟩ none =
      .ok (.RunCurrent (some ⟨["root"], RepoMode.SinglePackage⟩)) :=
  ⟨by decide,
   (run_correct_turbo_decision emptyDisk ⟨["root"], RepoMode.SinglePackage⟩
     ⟨[], false, [], []⟩ none).1 (by decide)⟩

/-- **C7.** On delegation the child argument vector is: `--skip-infer`
first iff the version gate accepts the local manifest; then the
dispatcher-facing tokens in original order; then one `--single-package`
iff the mode is single-package and the dispatcher-facing tokens do not
already contain it; then the `--` separator (always, even with nothing to
forward); then the forwarded tokens in original order.  The child's
working directory is the canonicalized root, and the exit code is the
child's, or 2 when it cannot be determined. -/
theorem spawn_local_turbo_argv (disk : Disk) (st : RepoState) (p : FilePath)
    (sa : ShimArgs) (w : Option Int) (c : FilePath) (b : Bool)
    (hcanon : disk.canonicalize st.root = .ok c)
    (hgate : local_turbo_supports_skip_infer
      (disk.readPackageJson (localTurboManifestPath st.root)) = .ok b) :
    st.spawn_local_turbo disk p sa w =
      .ok (.Delegated
        ⟨p,
         (if b then ["--skip-infer"] else []) ++ sa.remaining_turbo_args ++
           (if st.mode = RepoMode.SinglePackage ∧ "--single-package" ∉ sa.remaining_turbo_args
            then ["--single-package"] else []) ++
           ["--"] ++ sa.forwarded_args,
         c⟩
        (w.getD 2)) ∧
    (∀ k, w = some k → w.getD 2 = k) ∧ (w = none → w.getD 2 = 2) := by
  refine ⟨?_, fun k hk => by rw [hk]; rfl, fun hn => by rw [hn]; rfl⟩
  unfold RepoState.spawn_local_turbo
  rw [hcanon, hgate]
  dsimp only
  by_cases hmode : st.mode = RepoMode.SinglePackage
  · by_cases hmem : "--single-package" ∈ sa.remaining_turbo_args
    · simp [hmode, hmem, List.contains, List.elem_iff, List.append_assoc]
    · simp [hmode, hmem, List.contains, List.elem_iff, List.append_assoc]
  · have hb : (st.mode == RepoMode.SinglePackage) = false := by simp [hmode]
    simp [hmode, hb, List.append_assoc]

/-- Witness for C7 on a concrete single-package delegation with a `1.7.0`
local manifest. -/
theorem spawn_local_turbo_argv_witness :
    delegateDisk.canonicalize (["root"] : FilePath) = .ok ["root"] ∧
    local_turbo_supports_skip_infer
      (delegateDisk.readPackageJson (localTurboManifestPath ["root"])) = .ok true ∧
    (RepoState.spawn_local_turbo ⟨["root"], RepoMode.SinglePackage⟩ delegateDisk
        ["root", "node_modules", ".bin", "turbo"] ⟨["root"], false, ["build"], ["x"]⟩
        (some 0) =
      .ok (.Delegated
        ⟨["root", "node_modules", ".bin", "turbo"],
         (if true then ["--skip-infer"] else []) ++ ["build"] ++
           (if RepoMode.SinglePackage = RepoMode.SinglePackage ∧
               "--single-package" ∉ (["build"] : List String)
            then ["--single-package"] else []) ++
           ["--"] ++ ["x"],
         ["root"]⟩
        ((some (0 : Int)).getD 2)) ∧
     (∀ k, some (0 : Int) = some k → (some (0 : Int)).getD 2 = k) ∧
     (some (0 : Int) = none → (some (0 : Int)).getD 2 = 2)) :=
  ⟨by decide, by decide,
   spawn_local_turbo_argv delegateDisk ⟨["root"], RepoMode.SinglePackage⟩
     ["root", "node_modules", ".bin", "turbo"] ⟨["root"], false, ["build"], ["x"]⟩
     (some 0) ["root"] true (by decide) (by decide)⟩

end Turbo
